import Mathlib

/-!
Verification of the session/transcript state-management core of the
AI interview-summary application.

The embedded code comes from two variants of the application kept in the
repository:

* the root-level application file (here namespace `RootApp`): the live
  transcript merger `processTranscriptUpdate`, the text-only
  `updateTranscript`, and the diarization pass with the payload-size guard;
* `src/App.tsx` (here namespace `SrcApp`): the diarization pass with
  speaker coercion and fresh `auto-<i>` ids, the upsert-style
  `updateTranscript`, and the `generateSummary` empty-input guard;
* `services/audioUtils.ts` (`createPcmBlob`): the PCM quantizer;
* `components/SummaryPanel.tsx` and `src/App.tsx`: the UI gating of the
  record and generate actions.

Modelling conventions:
* Timestamps are `Nat` (milliseconds, as produced by `Date.now()`, which is
  a nonnegative integer).  The recency test of the merger compares
  `now - lastUpdateTime < 3000`; JavaScript computes a signed difference,
  while `Nat` subtraction truncates at zero.  Both sides of the comparison
  agree on every input: when `now < lastUpdateTime` the signed difference is
  negative and the truncated difference is `0`, and both are `< 3000`.
* Audio samples are `ℚ`.  Every floating-point operation performed by
  `createPcmBlob` (clamping, scaling by `0x8000`/`0x7FFF`, truncation) is
  exact on the float values involved (a float32 sample times a 15/16-bit
  constant fits exactly in a float64), so the rational model computes the
  same values the JavaScript code does.
* The external generative service (network call, `JSON.parse` of its reply)
  is modelled as an input describing the outcome of that call; everything
  the application itself does with that outcome is embedded from the source.
-/

/-! ## Data model (`types.ts`) -/

inductive SpeakerRole where
  | Staff
  | Client
  | AI
deriving DecidableEq, Repr

structure TranscriptItem where
  id : String
  speaker : SpeakerRole
  text : String
  timestamp : Nat
  isFinal : Bool
deriving DecidableEq, Repr

inductive AppStatus where
  | IDLE
  | CONNECTING
  | RECORDING
  | PROCESSING
  | ERROR
deriving DecidableEq, Repr

structure RagDocument where
  id : String
  name : String
  content : String
  mimeType : String
deriving DecidableEq, Repr

/-- One `{speaker, text}` record of a parsed diarization response. -/
structure DiarizeRecord where
  speaker : String
  text : String
deriving DecidableEq, Repr

/-- Outcome of the external diarization call together with the JSON parse of
its reply: the call threw, the reply text was empty, the reply was not a
parseable JSON array, or it parsed to a list of records. -/
inductive DiarizeResponse where
  | svcError
  | emptyText
  | badJson
  | ok (records : List DiarizeRecord)
deriving DecidableEq, Repr

/-! ## Decimal representations

The application builds entry ids with `now.toString()` (live merge),
`` `auto-${index}` `` and `` `post-process-${index}` `` (diarization).
Distinctness of those ids reduces to facts about `Nat.repr`, proved here via
an executable decimal parser and a parse/print roundtrip. -/

/-- Value of a decimal digit character, `none` on a non-digit. -/
def digitVal (c : Char) : Option Nat :=
  if '0' ≤ c ∧ c ≤ '9' then some (c.toNat - '0'.toNat) else none

/-- Accumulating decimal parser over a character list. -/
def parseDecCont : List Char → Nat → Option Nat
  | [], acc => some acc
  | c :: cs, acc => (digitVal c).bind fun d => parseDecCont cs (10 * acc + d)

/-- Decimal parser: fails on the empty list and on any non-digit. -/
def parseDec (l : List Char) : Option Nat :=
  match l with
  | [] => none
  | l => parseDecCont l 0

theorem digitVal_digitChar {d : Nat} (h : d < 10) :
    digitVal (Nat.digitChar d) = some d := by
  interval_cases d <;> decide

theorem parseDecCont_toDigitsCore (f : Nat) :
    ∀ n ds acc, n < f →
      ∃ k, Nat.toDigitsCore 10 f n ds ≠ [] ∧
        parseDecCont (Nat.toDigitsCore 10 f n ds) acc
          = parseDecCont ds (acc * 10 ^ k + n) := by
  induction f with
  | zero => intro n ds acc h; omega
  | succ f ih =>
    intro n ds acc _
    show ∃ k, (if n / 10 = 0 then Nat.digitChar (n % 10) :: ds
        else Nat.toDigitsCore 10 f (n / 10) (Nat.digitChar (n % 10) :: ds)) ≠ [] ∧
      parseDecCont (if n / 10 = 0 then Nat.digitChar (n % 10) :: ds
        else Nat.toDigitsCore 10 f (n / 10) (Nat.digitChar (n % 10) :: ds)) acc
        = parseDecCont ds (acc * 10 ^ _ + n)
    by_cases hdiv : n / 10 = 0
    · refine ⟨1, by simp [hdiv], ?_⟩
      have hn : n < 10 := by omega
      have hmod : n % 10 = n := Nat.mod_eq_of_lt hn
      simp [hdiv, parseDecCont, hmod, digitVal_digitChar hn, Option.bind]
      ring_nf
    · have hlt : n / 10 < f := by
        have h1 : n / 10 < n := Nat.div_lt_self (by omega) (by omega)
        omega
      obtain ⟨k, hne, hk⟩ := ih (n / 10) (Nat.digitChar (n % 10) :: ds) acc hlt
      refine ⟨k + 1, by simp [hdiv, hne], ?_⟩
      simp only [hdiv, if_false]
      rw [hk]
      have hm : n % 10 < 10 := Nat.mod_lt _ (by omega)
      simp [parseDecCont, digitVal_digitChar hm, Option.bind]
      congr 1
      have := Nat.div_add_mod n 10
      ring_nf
      omega

/-- Roundtrip: parsing the decimal print of `n` returns `n`. -/
theorem parseDec_repr (n : Nat) : parseDec (Nat.repr n).data = some n := by
  obtain ⟨k, hne, hk⟩ :=
    parseDecCont_toDigitsCore (n + 1) n [] 0 (Nat.lt_succ_self n)
  have hdata : (Nat.repr n).data = Nat.toDigitsCore 10 (n + 1) n [] := rfl
  rw [hdata]
  cases hl : Nat.toDigitsCore 10 (n + 1) n [] with
  | nil => exact absurd hl hne
  | cons c cs =>
    show parseDecCont (c :: cs) 0 = some n
    rw [← hl, hk]
    simp [parseDecCont]

/-- The decimal prints of two distinct naturals differ (as character data). -/
theorem repr_data_inj {m n : Nat} (h : (Nat.repr m).data = (Nat.repr n).data) :
    m = n := by
  have hm := parseDec_repr m
  have hn := parseDec_repr n
  rw [h, hn] at hm
  exact (Option.some.inj hm).symm

/-- A string of the form `p ++ Nat.repr n` where `p` starts with a non-digit
is never the decimal print of a natural. -/
theorem prefixed_ne_repr {p : String} {c : Char} {cs : List Char}
    (hp : p.data = c :: cs) (hc : digitVal c = none) (i t : Nat) :
    p ++ Nat.repr i ≠ Nat.repr t := by
  intro h
  have hdata := congrArg String.data h
  rw [String.data_append, hp] at hdata
  have ht := parseDec_repr t
  rw [← hdata] at ht
  simp [parseDec, parseDecCont, hc, Option.bind] at ht

theorem repr_inj {m n : Nat} (h : Nat.repr m = Nat.repr n) : m = n :=
  repr_data_inj (congrArg String.data h)

/-! ## The live transcript merger (root application file)

State held by the root application around the transcript: the `transcripts`
array plus the two mutable refs `activeTranscriptIdRef` and
`lastUpdateTimeRef` (initialised to `null` and `0`). -/

structure MergeState where
  transcripts : List TranscriptItem
  activeId : Option String
  lastUpdateTime : Nat
deriving DecidableEq, Repr

/-- Initial state: empty transcript, no active entry, `lastUpdateTimeRef = 0`. -/
def initMergeState : MergeState := ⟨[], none, 0⟩

def TIME_THRESHOLD_MS : Nat := 3000

/-- Position of the first entry whose id equals `lastId`
(`transcripts.findIndex(t => t.id === lastId)`, with `none` for `-1`). -/
def findIndexById (lastId : String) : List TranscriptItem → Option Nat
  | [] => none
  | t :: ts =>
    if t.id = lastId then some 0 else (findIndexById lastId ts).map (· + 1)

/-- The `lastItem` lookup of `processTranscriptUpdate`: the entry referenced
by `activeTranscriptIdRef` together with its index, when present. -/
def activeItem (s : MergeState) : Option (Nat × TranscriptItem) :=
  match s.activeId with
  | none => none
  | some lastId =>
    match findIndexById lastId s.transcripts with
    | none => none
    | some i =>
      match s.transcripts[i]? with
      | none => none
      | some item => some (i, item)

/-- The else-branch of the merge rule: push a fresh entry whose id is
`now.toString()`, mark it final, and make it the active entry. -/
def pushNewEntry (s : MergeState) (text : String) (now : Nat)
    (speaker : SpeakerRole) : MergeState :=
  let newId := Nat.repr now
  { transcripts :=
      s.transcripts ++ [⟨newId, speaker, text, now, true⟩],
    activeId := some newId,
    lastUpdateTime := now }

/-- The merge rule (`processTranscriptUpdate`): if the active entry exists,
its speaker matches, and less than `TIME_THRESHOLD_MS` elapsed since
`lastUpdateTimeRef`, append the text to it and clear `isFinal`; otherwise
push a fresh entry. -/
def processTranscriptUpdate (s : MergeState) (text : String) (now : Nat)
    (speaker : SpeakerRole) : MergeState :=
  match activeItem s with
  | some (i, lastItem) =>
    if lastItem.speaker = speaker ∧ now - s.lastUpdateTime < TIME_THRESHOLD_MS then
      { s with
          transcripts := s.transcripts.set i
            { lastItem with text := lastItem.text ++ text, isFinal := false },
          lastUpdateTime := now }
    else pushNewEntry s text now speaker
  | none => pushNewEntry s text now speaker

/-- Whether a fragment is discarded by `handleTranscriptChunk`
(`if (!text.trim()) return`): true iff every character is whitespace. -/
def isBlank (text : String) : Bool :=
  text.data.all (fun c => c.isWhitespace)

/-- Entry point for live fragments: whitespace-only fragments are dropped,
anything else is merged, always attributed to the `Staff` speaker. -/
def handleTranscriptChunk (s : MergeState) (text : String) (now : Nat) :
    MergeState :=
  if isBlank text then s else processTranscriptUpdate s text now .Staff

/-- User edit of an entry's text by id in the root application file:
`setTranscripts(prev => prev.map(t => t.id === id ? { ...t, text: newText } : t))`. -/
def updateTranscript (s : MergeState) (id : String) (newText : String) :
    MergeState :=
  { s with
      transcripts := s.transcripts.map fun t =>
        if t.id = id then { t with text := newText } else t }

/-- Folding a sequence of live fragments (arrival time and text) through the
merger with a fixed speaker. -/
def mergeRun (s : MergeState) (speaker : SpeakerRole) :
    List (Nat × String) → MergeState
  | [] => s
  | (now, text) :: rest =>
    mergeRun (processTranscriptUpdate s text now speaker) speaker rest

/-- Concatenation of the fragment texts in arrival order. -/
def concatTexts : List (Nat × String) → String
  | [] => ""
  | (_, text) :: rest => text ++ concatTexts rest

/-- All arrival gaps below the continuation threshold, starting from a last
update at time `t`. -/
def chainedFrom (t : Nat) : List (Nat × String) → Bool
  | [] => true
  | (now, _) :: rest =>
    decide (now - t < TIME_THRESHOLD_MS) && chainedFrom now rest

/-- Arrival time of the last fragment, `t` for the empty sequence. -/
def lastArrival (t : Nat) : List (Nat × String) → Nat
  | [] => t
  | (now, _) :: rest => lastArrival now rest


/-! ## Characterising the merger's lookup -/

theorem findIndexById_some {a : String} :
    ∀ {l : List TranscriptItem} {i : Nat}, findIndexById a l = some i →
      ∃ e, l[i]? = some e ∧ e.id = a := by
  intro l
  induction l with
  | nil => intro i h; simp [findIndexById] at h
  | cons t ts ih =>
    intro i h
    rw [findIndexById] at h
    by_cases ht : t.id = a
    · rw [if_pos ht] at h
      cases h
      exact ⟨t, by simp, ht⟩
    · rw [if_neg ht] at h
      cases hrec : findIndexById a ts with
      | none => rw [hrec] at h; exact Option.noConfusion h
      | some j =>
        rw [hrec] at h
        simp only [Option.map_some', Option.some.injEq] at h
        subst h
        obtain ⟨e, he, hea⟩ := ih hrec
        exact ⟨e, by simpa using he, hea⟩

theorem findIndexById_none_iff {a : String} {l : List TranscriptItem} :
    findIndexById a l = none ↔ ∀ e ∈ l, e.id ≠ a := by
  induction l with
  | nil => simp [findIndexById]
  | cons t ts ih =>
    rw [findIndexById]
    by_cases ht : t.id = a
    · simp only [if_pos ht]
      constructor
      · exact fun h => Option.noConfusion h
      · exact fun h => absurd ht (h t (List.mem_cons_self t ts))
    · rw [if_neg ht, Option.map_eq_none', ih]
      constructor
      · intro h e he
        rcases List.mem_cons.mp he with rfl | hts
        · exact ht
        · exact h e hts
      · intro h e he
        exact h e (List.mem_cons_of_mem t he)

theorem activeItem_some {s : MergeState} {i : Nat} {e : TranscriptItem}
    (h : activeItem s = some (i, e)) :
    s.transcripts[i]? = some e ∧ s.activeId = some e.id := by
  obtain ⟨ts, aid, lt⟩ := s
  cases aid with
  | none => simp [activeItem] at h
  | some lastId =>
    dsimp only [activeItem] at h
    cases hfind : findIndexById lastId ts with
    | none => rw [hfind] at h; simp at h
    | some j =>
      rw [hfind] at h
      dsimp only at h
      cases hget : ts[j]? with
      | none => rw [hget] at h; simp at h
      | some item =>
        rw [hget] at h
        simp only [Option.some.injEq, Prod.mk.injEq] at h
        obtain ⟨rfl, rfl⟩ := h
        obtain ⟨e', he', hid'⟩ := findIndexById_some hfind
        rw [hget] at he'
        cases he'
        exact ⟨hget, by rw [hid']⟩

/-- Membership of an entry carrying the active id forces the lookup to
succeed. -/
theorem activeItem_ne_none {s : MergeState} {e : TranscriptItem}
    (he : e ∈ s.transcripts) (hid : s.activeId = some e.id) :
    activeItem s ≠ none := by
  obtain ⟨ts, aid, lt⟩ := s
  cases hid
  dsimp only [activeItem]
  cases hfind : findIndexById e.id ts with
  | none =>
    exact absurd rfl (findIndexById_none_iff.mp hfind e he)
  | some i =>
    obtain ⟨e', he', _⟩ := findIndexById_some hfind
    dsimp only
    rw [he']
    simp

/-! ## Single-entry runs of the merger -/

theorem mergeRun_singleton :
    ∀ (rest : List (Nat × String)) (a : String) (sp : SpeakerRole)
      (txt : String) (fin : Bool) (ts t : Nat),
      chainedFrom t rest = true →
      mergeRun ⟨[⟨a, sp, txt, ts, fin⟩], some a, t⟩ sp rest
        = ⟨[⟨a, sp, txt ++ concatTexts rest, ts,
              if rest.isEmpty then fin else false⟩],
            some a, lastArrival t rest⟩ := by
  intro rest
  induction rest with
  | nil =>
    intro a sp txt fin ts t _
    simp [mergeRun, concatTexts, lastArrival]
  | cons p rest ih =>
    intro a sp txt fin ts t hchain
    obtain ⟨now, x⟩ := p
    rw [chainedFrom, Bool.and_eq_true, decide_eq_true_eq] at hchain
    obtain ⟨hgap, hrest⟩ := hchain
    have hactive :
        activeItem ⟨[⟨a, sp, txt, ts, fin⟩], some a, t⟩
          = some (0, ⟨a, sp, txt, ts, fin⟩) := by
      simp [activeItem, findIndexById]
    rw [mergeRun, processTranscriptUpdate, hactive]
    dsimp only
    rw [if_pos (show (⟨a, sp, txt, ts, fin⟩ : TranscriptItem).speaker = sp ∧
        now - t < TIME_THRESHOLD_MS from ⟨rfl, hgap⟩)]
    show mergeRun ⟨[⟨a, sp, txt ++ x, ts, false⟩], some a, now⟩ sp rest = _
    rw [ih a sp (txt ++ x) false ts now hrest]
    simp [concatTexts, lastArrival, String.append_assoc]

/-- C1.  The merge rule of `processTranscriptUpdate`: with a live active
entry of matching speaker within the 3000 ms threshold the fragment text is
appended to that entry and its `isFinal` flag cleared; in every other case a
fresh final entry carrying the fragment is pushed at the end and becomes the
active entry; consequently a same-speaker run of fragments all within the
threshold, starting from the initial state, produces exactly one entry whose
text is the concatenation of the fragments in arrival order. -/
theorem c1_live_merge :
    (∀ (s : MergeState) (text : String) (now : Nat) (sp : SpeakerRole)
        (i : Nat) (e : TranscriptItem),
      activeItem s = some (i, e) → e.speaker = sp →
      now - s.lastUpdateTime < TIME_THRESHOLD_MS →
      processTranscriptUpdate s text now sp =
        { s with
            transcripts := s.transcripts.set i
              { e with text := e.text ++ text, isFinal := false },
            lastUpdateTime := now })
  ∧ (∀ (s : MergeState) (text : String) (now : Nat) (sp : SpeakerRole),
      activeItem s = none →
      processTranscriptUpdate s text now sp =
        { transcripts :=
            s.transcripts ++ [⟨Nat.repr now, sp, text, now, true⟩],
          activeId := some (Nat.repr now),
          lastUpdateTime := now })
  ∧ (∀ (s : MergeState) (text : String) (now : Nat) (sp : SpeakerRole)
        (i : Nat) (e : TranscriptItem),
      activeItem s = some (i, e) →
      ¬(e.speaker = sp ∧ now - s.lastUpdateTime < TIME_THRESHOLD_MS) →
      processTranscriptUpdate s text now sp =
        { transcripts :=
            s.transcripts ++ [⟨Nat.repr now, sp, text, now, true⟩],
          activeId := some (Nat.repr now),
          lastUpdateTime := now })
  ∧ (∀ (sp : SpeakerRole) (t₀ : Nat) (x₀ : String)
        (rest : List (Nat × String)),
      chainedFrom t₀ rest = true →
      (mergeRun initMergeState sp ((t₀, x₀) :: rest)).transcripts.map
          (fun e => (e.speaker, e.text))
        = [(sp, x₀ ++ concatTexts rest)]) := by
  refine ⟨?_, ?_, ?_, ?_⟩
  · intro s text now sp i e hactive hsp hgap
    rw [processTranscriptUpdate, hactive]
    dsimp only
    rw [if_pos ⟨hsp, hgap⟩]
  · intro s text now sp hactive
    rw [processTranscriptUpdate, hactive]
    rfl
  · intro s text now sp i e hactive hneg
    rw [processTranscriptUpdate, hactive]
    dsimp only
    rw [if_neg hneg]
    rfl
  · intro sp t₀ x₀ rest hchain
    have hinit : activeItem initMergeState = none := rfl
    rw [mergeRun, processTranscriptUpdate, hinit]
    show (mergeRun ⟨[⟨Nat.repr t₀, sp, x₀, t₀, true⟩],
        some (Nat.repr t₀), t₀⟩ sp rest).transcripts.map
        (fun e => (e.speaker, e.text)) = _
    rw [mergeRun_singleton rest (Nat.repr t₀) sp x₀ true t₀ t₀ hchain]
    simp

/-- Witness for C1 at concrete inputs: an append within the threshold, a
fresh entry on a missing active entry and on a stale gap, and scenario A of
the specification (two fragments 500 ms apart merging into one entry). -/
theorem c1_live_merge_witness :
    (processTranscriptUpdate
        ⟨[⟨"100", .Staff, "こんにちは", 100, true⟩], some "100", 100⟩
        "、よろしく" 600 .Staff =
      ⟨[⟨"100", .Staff, "こんにちは、よろしく", 100, false⟩], some "100", 600⟩)
  ∧ (processTranscriptUpdate initMergeState "おはよう" 0 .Staff =
      ⟨[⟨"0", .Staff, "おはよう", 0, true⟩], some "0", 0⟩)
  ∧ (processTranscriptUpdate
        ⟨[⟨"0", .Staff, "おはよう", 0, true⟩], some "0", 0⟩
        "こんばんは" 5000 .Staff =
      ⟨[⟨"0", .Staff, "おはよう", 0, true⟩,
        ⟨"5000", .Staff, "こんばんは", 5000, true⟩], some "5000", 5000⟩)
  ∧ (mergeRun initMergeState .Staff
        [(100, "こんにちは"), (600, "、よろしく")]).transcripts.map
        (fun e => (e.speaker, e.text))
      = [(.Staff, "こんにちは、よろしく")] := by
  refine ⟨?_, ?_, ?_, ?_⟩
  · exact c1_live_merge.1
      ⟨[⟨"100", .Staff, "こんにちは", 100, true⟩], some "100", 100⟩
      "、よろしく" 600 .Staff 0 ⟨"100", .Staff, "こんにちは", 100, true⟩
      (by decide) (by decide) (by decide)
  · exact c1_live_merge.2.1 initMergeState "おはよう" 0 .Staff (by decide)
  · exact c1_live_merge.2.2.1
      ⟨[⟨"0", .Staff, "おはよう", 0, true⟩], some "0", 0⟩
      "こんばんは" 5000 .Staff 0 ⟨"0", .Staff, "おはよう", 0, true⟩
      (by decide) (by decide)
  · have h := c1_live_merge.2.2.2 .Staff 100 "こんにちは"
      [(600, "、よろしく")] (by decide)
    simpa using h

/-- C9.  Editing an entry's text by id (root application file) rewrites only
the text of the entries carrying that id: every position keeps its entry's
id, speaker, timestamp and `isFinal` flag, entries with other ids are
untouched, and neither `activeTranscriptIdRef` nor `lastUpdateTimeRef`
changes. -/
theorem c9_edit_frame (s : MergeState) (id newText : String)
    (hmem : ∃ e ∈ s.transcripts, e.id = id) :
    (updateTranscript s id newText).activeId = s.activeId ∧
    (updateTranscript s id newText).lastUpdateTime = s.lastUpdateTime ∧
    (updateTranscript s id newText).transcripts.length
      = s.transcripts.length ∧
    ∀ i : Nat, i < s.transcripts.length →
      ∃ e e', s.transcripts[i]? = some e ∧
        (updateTranscript s id newText).transcripts[i]? = some e' ∧
        e'.id = e.id ∧ e'.speaker = e.speaker ∧
        e'.timestamp = e.timestamp ∧ e'.isFinal = e.isFinal ∧
        e'.text = if e.id = id then newText else e.text := by
  refine ⟨rfl, rfl, by simp [updateTranscript], ?_⟩
  intro i hi
  have he : s.transcripts[i]? = some s.transcripts[i] :=
    List.getElem?_eq_getElem hi
  refine ⟨s.transcripts[i],
    if s.transcripts[i].id = id
      then { s.transcripts[i] with text := newText }
      else s.transcripts[i], he, ?_, ?_⟩
  · show (s.transcripts.map _)[i]? = _
    rw [List.getElem?_map, he]
    rfl
  · by_cases hid : s.transcripts[i].id = id <;> simp [hid]

/-- Witness for C9: editing the first of two entries by id changes only its
text. -/
theorem c9_edit_frame_witness :
    (updateTranscript
        ⟨[⟨"7", .Staff, "old", 7, true⟩, ⟨"9", .Client, "keep", 9, true⟩],
          some "9", 9⟩ "7" "new").activeId = some "9" ∧
    (updateTranscript
        ⟨[⟨"7", .Staff, "old", 7, true⟩, ⟨"9", .Client, "keep", 9, true⟩],
          some "9", 9⟩ "7" "new").lastUpdateTime = 9 ∧
    (updateTranscript
        ⟨[⟨"7", .Staff, "old", 7, true⟩, ⟨"9", .Client, "keep", 9, true⟩],
          some "9", 9⟩ "7" "new").transcripts.length = 2 ∧
    ∀ i : Nat,
      i < ([⟨"7", .Staff, "old", 7, true⟩,
            ⟨"9", .Client, "keep", 9, true⟩] : List TranscriptItem).length →
      ∃ e e',
        ([⟨"7", SpeakerRole.Staff, "old", 7, true⟩,
          ⟨"9", .Client, "keep", 9, true⟩] : List TranscriptItem)[i]?
            = some e ∧
        (updateTranscript
          ⟨[⟨"7", .Staff, "old", 7, true⟩, ⟨"9", .Client, "keep", 9, true⟩],
            some "9", 9⟩ "7" "new").transcripts[i]? = some e' ∧
        e'.id = e.id ∧ e'.speaker = e.speaker ∧
        e'.timestamp = e.timestamp ∧ e'.isFinal = e.isFinal ∧
        e'.text = if e.id = "7" then "new" else e.text :=
  c9_edit_frame
    ⟨[⟨"7", .Staff, "old", 7, true⟩, ⟨"9", .Client, "keep", 9, true⟩],
      some "9", 9⟩ "7" "new"
    ⟨⟨"7", .Staff, "old", 7, true⟩, by simp, rfl⟩

/-! ## Shared facts about prefixed decimal ids -/

theorem prefixed_repr_inj {pre : String} {j k : Nat}
    (h : pre ++ Nat.repr j = pre ++ Nat.repr k) : j = k := by
  have hd := congrArg String.data h
  rw [String.data_append, String.data_append] at hd
  exact repr_data_inj (List.append_cancel_left hd)

/-! ## The `src/App.tsx` variant -/

namespace SrcApp

/-- Speaker coercion of the diarization reconciler:
`(item.speaker === 'Staff' || item.speaker === 'Client') ? item.speaker : 'Staff'`. -/
def coerceSpeaker (s : String) : SpeakerRole :=
  if s = "Staff" ∨ s = "Client" then
    (if s = "Staff" then .Staff else .Client)
  else .Staff

/-- The `result.map((item, index) => ...)` step of `analyzeAudioAndDiarize`:
each record becomes an entry with id `auto-<index>`, coerced speaker, a fresh
timestamp and `isFinal = true`.  The starting index is a parameter so the
recursion can carry it; the application calls it with `0`. -/
def mkAutoTranscripts (now : Nat) : Nat → List DiarizeRecord → List TranscriptItem
  | _, [] => []
  | i, r :: rs =>
    ⟨"auto-" ++ Nat.repr i, coerceSpeaker r.speaker, r.text, now, true⟩
      :: mkAutoTranscripts now (i + 1) rs

/-- The React state of `src/App.tsx` touched by the operations under study. -/
structure AppState where
  status : AppStatus
  transcripts : List TranscriptItem
  summary : String
  documents : List RagDocument
  errorMsg : Option String
  hasPostProcessed : Bool
deriving DecidableEq, Repr

/-- Diarization pass of `src/App.tsx`.  It sets the status to `PROCESSING`
and clears the error banner, then either replaces the whole transcript with
the freshly built entries (success) or lands in the `catch` block, which
surfaces a dismissible error message and leaves the transcript untouched;
both paths return the status to `IDLE`.  An empty reply text fails inside
`JSON.parse` and is handled by the same `catch` block. -/
def analyzeAudioAndDiarize (st : AppState) (now : Nat)
    (resp : DiarizeResponse) : AppState :=
  let st0 := { st with status := AppStatus.PROCESSING, errorMsg := none }
  match resp with
  | .ok records =>
    { st0 with
        transcripts := mkAutoTranscripts now 0 records,
        hasPostProcessed := true,
        status := .IDLE }
  | .svcError =>
    { st0 with
        errorMsg := some "AI分析中にエラーが発生しました",
        status := .IDLE }
  | .emptyText =>
    { st0 with
        errorMsg :=
          some "AI分析中にエラーが発生しました: AIの応答をJSONとして解析できませんでした。",
        status := .IDLE }
  | .badJson =>
    { st0 with
        errorMsg :=
          some "AI分析中にエラーが発生しました: AIの応答をJSONとして解析できませんでした。",
        status := .IDLE }

/-- Transcript edit of `src/App.tsx`: overwrite text and `isFinal` of the
entry with the given id when it exists, otherwise append a new `Staff` entry
carrying that id and a fresh timestamp. -/
def updateTranscript (prev : List TranscriptItem) (id : String)
    (text : String) (final : Bool) (now : Nat) : List TranscriptItem :=
  match prev.find? (fun t => t.id == id) with
  | some _ =>
    prev.map fun t =>
      if t.id = id then { t with text := text, isFinal := final } else t
  | none => prev ++ [⟨id, .Staff, text, now, final⟩]

/-- Summary template catalog (`constants.ts`), prompts abridged to their
identifying first line. -/
structure SummaryTemplate where
  id : String
  name : String
  prompt : String
deriving DecidableEq, Repr

def TEMPLATES : List SummaryTemplate :=
  [⟨"monitoring", "モニタリング (Monitoring)",
    "以下の面談記録に基づき、就労移行支援のモニタリング報告書形式で要約してください。"⟩,
   ⟨"assessment", "アセスメント (Assessment)",
    "以下の面談記録に基づき、アセスメントシート形式で要約してください。"⟩,
   ⟨"review", "支援計画振り返り (Review)",
    "以下の面談記録に基づき、支援計画の振り返りを作成してください。"⟩,
   ⟨"free", "自由形式 (Free)",
    "面談の内容を重要なポイントを箇条書きで整理し、簡潔に要約してください。"⟩]

/-- One part of the multimodal generation request. -/
inductive GenPart where
  | text (s : String)
  | inlineData (mimeType : String) (data : String)
deriving DecidableEq, Repr

/-- Printing of the `SpeakerRole` union value in template literals. -/
def speakerName : SpeakerRole → String
  | .Staff => "Staff"
  | .Client => "Client"
  | .AI => "AI"

/-- The conversation log: ordered `[speaker]: text` lines. -/
def conversationLog (transcripts : List TranscriptItem) : String :=
  String.intercalate "\n"
    (transcripts.map fun t => "[" ++ speakerName t.speaker ++ "]: " ++ t.text)

def isTextDoc (d : RagDocument) : Bool :=
  d.mimeType == "text/plain" || d.mimeType == "application/json"

/-- Request assembly of `generateSummary`: instructions, custom
instructions, conversation log (with a placeholder when empty), inline
text documents, then one binary attachment part per non-text document. -/
def buildParts (transcripts : List TranscriptItem)
    (documents : List RagDocument) (templateId customInstruction : String) :
    List GenPart :=
  let promptText :=
    match TEMPLATES.find? (fun t => t.id == templateId) with
    | some t => t.prompt
    | none => ""
  let log := conversationLog transcripts
  let body :=
    "\n【指示】\n" ++ promptText ++ "\n\n【追加指示】\n" ++ customInstruction ++
      "\n\n【会話ログ】\n" ++ (if log.length > 0 then log else "(会話ログなし)") ++
      "\n"
  let textDocs := documents.filter isTextDoc
  let fullPrompt :=
    if textDocs.length > 0 then
      body ++ "\n\n【参照資料テキスト】\n" ++
        String.join (textDocs.map fun d =>
          "--- " ++ d.name ++ " ---\n" ++ d.content ++ "\n\n")
    else body
  GenPart.text fullPrompt ::
    (documents.filter (fun d => !isTextDoc d)).map
      (fun d => GenPart.inlineData d.mimeType d.content)

/-- Outcome of the external generation call. -/
inductive GenOutcome where
  | ok (text : Option String)
  | err (msg : String)
deriving DecidableEq, Repr

/-- Summary generation of `src/App.tsx`.  With an empty transcript and no
documents it alerts and returns before any state change or external call
(second component `none`); otherwise it builds the request, and on
completion stores the returned text or surfaces an error, returning the
status to `IDLE` either way. -/
def generateSummary (st : AppState) (templateId customInstruction : String)
    (resp : GenOutcome) : AppState × Option (List GenPart) :=
  if st.transcripts.length = 0 ∧ st.documents.length = 0 then
    (st, none)
  else
    let st0 := { st with status := AppStatus.PROCESSING }
    let parts := buildParts st.transcripts st.documents templateId customInstruction
    match resp with
    | .ok text =>
      ({ st0 with summary := text.getD "", status := .IDLE }, some parts)
    | .err msg =>
      ({ st0 with
          errorMsg := some ("要約の生成に失敗しました: " ++ msg),
          status := .IDLE }, some parts)

end SrcApp

/-! ## The root application variant's diarization pass -/

/-- Transcript entry as the root variant produces it: the speaker field is
written by an unchecked `item.speaker as SpeakerRole` cast, so at runtime it
is whatever string the service returned. -/
structure RootItem where
  id : String
  speaker : String
  text : String
  timestamp : Nat
  isFinal : Bool
deriving DecidableEq, Repr

structure RootState where
  status : AppStatus
  transcripts : List RootItem
  errorMsg : Option String
  hasPostProcessed : Bool
deriving DecidableEq, Repr

namespace RootApp

/-- Mapping of parsed records to entries with ids `post-process-<index>`. -/
def mkPostTranscripts (now : Nat) : Nat → List DiarizeRecord → List RootItem
  | _, [] => []
  | i, r :: rs =>
    ⟨"post-process-" ++ Nat.repr i, r.speaker, r.text, now, true⟩
      :: mkPostTranscripts now (i + 1) rs

/-- Diarization pass of the root application file.  The encoded payload
length is checked against the fixed 19 MiB guard before anything is sent;
beyond the guard the function throws into its own `catch` block, so no
external call happens (second component `false`) and the transcript is
untouched.  Otherwise the call is attempted and handled as in the other
variant. -/
def analyzeAudioAndDiarize (st : RootState) (base64Length now : Nat)
    (resp : DiarizeResponse) : RootState × Bool :=
  let st0 := { st with status := AppStatus.PROCESSING, errorMsg := none }
  if base64Length > 19 * 1024 * 1024 then
    ({ st0 with
        errorMsg := some
          "分析処理に失敗しました: 録音データが大きすぎます（約60分以上）。CSVエクスポートで保存してください。",
        status := .IDLE }, false)
  else
    match resp with
    | .ok records =>
      ({ st0 with
          transcripts := mkPostTranscripts now 0 records,
          hasPostProcessed := true,
          status := .IDLE }, true)
    | .svcError =>
      ({ st0 with errorMsg := some "分析処理に失敗しました", status := .IDLE }, true)
    | .emptyText =>
      ({ st0 with
          errorMsg := some "分析処理に失敗しました: Empty response",
          status := .IDLE }, true)
    | .badJson =>
      ({ st0 with errorMsg := some "分析処理に失敗しました", status := .IDLE }, true)

end RootApp

namespace SrcApp

theorem mem_mkAutoTranscripts_id {now : Nat} :
    ∀ {rs : List DiarizeRecord} {k : Nat} {e : TranscriptItem},
      e ∈ mkAutoTranscripts now k rs →
      ∃ j, k ≤ j ∧ e.id = "auto-" ++ Nat.repr j := by
  intro rs
  induction rs with
  | nil => intro k e h; simp [mkAutoTranscripts] at h
  | cons r rs ih =>
    intro k e h
    rw [mkAutoTranscripts] at h
    rcases List.mem_cons.mp h with rfl | htail
    · exact ⟨k, le_rfl, rfl⟩
    · obtain ⟨j, hj, hid⟩ := ih htail
      exact ⟨j, by omega, hid⟩

theorem mkAutoTranscripts_ids_nodup {now : Nat} :
    ∀ (rs : List DiarizeRecord) (k : Nat),
      ((mkAutoTranscripts now k rs).map (fun e => e.id)).Nodup := by
  intro rs
  induction rs with
  | nil => intro k; simp [mkAutoTranscripts]
  | cons r rs ih =>
    intro k
    rw [mkAutoTranscripts]
    rw [List.map_cons, List.nodup_cons]
    refine ⟨?_, ih (k + 1)⟩
    intro hmem
    obtain ⟨e, he, hid⟩ := List.mem_map.mp hmem
    obtain ⟨j, hj, hjid⟩ := mem_mkAutoTranscripts_id he
    rw [hjid] at hid
    have := prefixed_repr_inj hid
    omega

theorem mkAutoTranscripts_isFinal {now : Nat} :
    ∀ {rs : List DiarizeRecord} {k : Nat} {e : TranscriptItem},
      e ∈ mkAutoTranscripts now k rs → e.isFinal = true := by
  intro rs
  induction rs with
  | nil => intro k e h; simp [mkAutoTranscripts] at h
  | cons r rs ih =>
    intro k e h
    rw [mkAutoTranscripts] at h
    rcases List.mem_cons.mp h with rfl | htail
    · rfl
    · exact ih htail

theorem mkAutoTranscripts_speakers {now : Nat} :
    ∀ (rs : List DiarizeRecord) (k : Nat),
      (mkAutoTranscripts now k rs).map (fun e => e.speaker)
        = rs.map (fun r => coerceSpeaker r.speaker) := by
  intro rs
  induction rs with
  | nil => intro k; rfl
  | cons r rs ih =>
    intro k
    rw [mkAutoTranscripts, List.map_cons, List.map_cons, ih (k + 1)]

theorem mkAutoTranscripts_length {now : Nat} :
    ∀ (rs : List DiarizeRecord) (k : Nat),
      (mkAutoTranscripts now k rs).length = rs.length := by
  intro rs
  induction rs with
  | nil => intro k; rfl
  | cons r rs ih =>
    intro k
    rw [mkAutoTranscripts, List.length_cons, ih (k + 1), List.length_cons]

theorem coerceSpeaker_mem (s : String) :
    coerceSpeaker s = .Staff ∨ coerceSpeaker s = .Client := by
  unfold coerceSpeaker
  by_cases h : s = "Staff" ∨ s = "Client"
  · rw [if_pos h]
    by_cases hs : s = "Staff"
    · rw [if_pos hs]; exact Or.inl rfl
    · rw [if_neg hs]; exact Or.inr rfl
  · rw [if_neg h]; exact Or.inl rfl

end SrcApp

/-- C2.  Diarization (`src/App.tsx`): on success the prior transcript is
fully replaced by the entries built from the parsed records, all final,
with pairwise distinct fresh ids, and the session returns to `IDLE`; on any
failure (service error, empty reply, unparseable JSON) the transcript is
exactly the one held before, an error message is surfaced, and the session
still returns to `IDLE`. -/
theorem c2_diarize_replace_or_retain :
    (∀ (st : SrcApp.AppState) (now : Nat) (records : List DiarizeRecord),
      (SrcApp.analyzeAudioAndDiarize st now (.ok records)).transcripts
          = SrcApp.mkAutoTranscripts now 0 records ∧
      (∀ e ∈ (SrcApp.analyzeAudioAndDiarize st now (.ok records)).transcripts,
        e.isFinal = true) ∧
      ((SrcApp.analyzeAudioAndDiarize st now (.ok records)).transcripts.map
          (fun e => e.id)).Nodup ∧
      (SrcApp.analyzeAudioAndDiarize st now (.ok records)).status = .IDLE)
  ∧ (∀ (st : SrcApp.AppState) (now : Nat) (resp : DiarizeResponse),
      resp = .svcError ∨ resp = .emptyText ∨ resp = .badJson →
      (SrcApp.analyzeAudioAndDiarize st now resp).transcripts
          = st.transcripts ∧
      (SrcApp.analyzeAudioAndDiarize st now resp).errorMsg.isSome = true ∧
      (SrcApp.analyzeAudioAndDiarize st now resp).status = .IDLE) := by
  constructor
  · intro st now records
    refine ⟨rfl, ?_, ?_, rfl⟩
    · intro e he
      exact SrcApp.mkAutoTranscripts_isFinal he
    · exact SrcApp.mkAutoTranscripts_ids_nodup records 0
  · intro st now resp hresp
    rcases hresp with rfl | rfl | rfl <;> exact ⟨rfl, rfl, rfl⟩

/-- Witness for C2: a concrete success replaces the transcript, a concrete
failure retains it. -/
theorem c2_diarize_replace_or_retain_witness :
    ((SrcApp.analyzeAudioAndDiarize
        ⟨.IDLE, [⟨"1", .Staff, "old", 1, true⟩], "", [], none, false⟩
        42 (.ok [⟨"Client", "hi"⟩])).transcripts
      = SrcApp.mkAutoTranscripts 42 0 [⟨"Client", "hi"⟩] ∧
     (∀ e ∈ (SrcApp.analyzeAudioAndDiarize
        ⟨.IDLE, [⟨"1", .Staff, "old", 1, true⟩], "", [], none, false⟩
        42 (.ok [⟨"Client", "hi"⟩])).transcripts, e.isFinal = true) ∧
     ((SrcApp.analyzeAudioAndDiarize
        ⟨.IDLE, [⟨"1", .Staff, "old", 1, true⟩], "", [], none, false⟩
        42 (.ok [⟨"Client", "hi"⟩])).transcripts.map
          (fun e => e.id)).Nodup ∧
     (SrcApp.analyzeAudioAndDiarize
        ⟨.IDLE, [⟨"1", .Staff, "old", 1, true⟩], "", [], none, false⟩
        42 (.ok [⟨"Client", "hi"⟩])).status = .IDLE)
  ∧ ((SrcApp.analyzeAudioAndDiarize
        ⟨.IDLE, [⟨"1", .Staff, "old", 1, true⟩], "", [], none, false⟩
        42 .badJson).transcripts = [⟨"1", .Staff, "old", 1, true⟩] ∧
     (SrcApp.analyzeAudioAndDiarize
        ⟨.IDLE, [⟨"1", .Staff, "old", 1, true⟩], "", [], none, false⟩
        42 .badJson).errorMsg.isSome = true ∧
     (SrcApp.analyzeAudioAndDiarize
        ⟨.IDLE, [⟨"1", .Staff, "old", 1, true⟩], "", [], none, false⟩
        42 .badJson).status = .IDLE) :=
  ⟨c2_diarize_replace_or_retain.1
      ⟨.IDLE, [⟨"1", .Staff, "old", 1, true⟩], "", [], none, false⟩
      42 [⟨"Client", "hi"⟩],
   c2_diarize_replace_or_retain.2
      ⟨.IDLE, [⟨"1", .Staff, "old", 1, true⟩], "", [], none, false⟩
      42 .badJson (Or.inr (Or.inr rfl))⟩

/-- C5.  Every record of a successfully parsed diarization response yields
exactly one transcript entry (none is dropped), its speaker is the coercion
of the record's speaker field, the coercion keeps `Staff` and `Client` and
maps every other value to `Staff`, so every resulting speaker is `Staff` or
`Client`. -/
theorem c5_speaker_coercion :
    ∀ (st : SrcApp.AppState) (now : Nat) (records : List DiarizeRecord),
      (SrcApp.analyzeAudioAndDiarize st now (.ok records)).transcripts.length
          = records.length ∧
      (SrcApp.analyzeAudioAndDiarize st now (.ok records)).transcripts.map
          (fun e => e.speaker)
        = records.map (fun r => SrcApp.coerceSpeaker r.speaker) ∧
      (∀ e ∈ (SrcApp.analyzeAudioAndDiarize st now (.ok records)).transcripts,
        e.speaker = .Staff ∨ e.speaker = .Client) ∧
      SrcApp.coerceSpeaker "Staff" = .Staff ∧
      SrcApp.coerceSpeaker "Client" = .Client ∧
      (∀ s : String, s ≠ "Staff" → s ≠ "Client" →
        SrcApp.coerceSpeaker s = .Staff) := by
  intro st now records
  refine ⟨SrcApp.mkAutoTranscripts_length records 0,
    SrcApp.mkAutoTranscripts_speakers records 0, ?_, by decide, by decide, ?_⟩
  · intro e he
    have hmem : e.speaker ∈ (SrcApp.mkAutoTranscripts now 0 records).map
        (fun e => e.speaker) := List.mem_map_of_mem _ he
    rw [SrcApp.mkAutoTranscripts_speakers records 0] at hmem
    obtain ⟨r, _, hr⟩ := List.mem_map.mp hmem
    rw [← hr]
    exact SrcApp.coerceSpeaker_mem r.speaker
  · intro s hs hc
    unfold SrcApp.coerceSpeaker
    rw [if_neg (by tauto)]

/-- Witness for C5: scenario C of the specification, a record with speaker
`Nurse` is kept and coerced to `Staff`. -/
theorem c5_speaker_coercion_witness :
    ((SrcApp.analyzeAudioAndDiarize
        ⟨.IDLE, [], "", [], none, false⟩ 7
        (.ok [⟨"Nurse", "hi"⟩])).transcripts.length = 1 ∧
     (SrcApp.analyzeAudioAndDiarize
        ⟨.IDLE, [], "", [], none, false⟩ 7
        (.ok [⟨"Nurse", "hi"⟩])).transcripts.map (fun e => e.speaker)
       = [SrcApp.coerceSpeaker "Nurse"] ∧
     (∀ e ∈ (SrcApp.analyzeAudioAndDiarize
        ⟨.IDLE, [], "", [], none, false⟩ 7
        (.ok [⟨"Nurse", "hi"⟩])).transcripts,
        e.speaker = .Staff ∨ e.speaker = .Client) ∧
     SrcApp.coerceSpeaker "Staff" = .Staff ∧
     SrcApp.coerceSpeaker "Client" = .Client ∧
     SrcApp.coerceSpeaker "Nurse" = .Staff) := by
  have h := c5_speaker_coercion ⟨.IDLE, [], "", [], none, false⟩ 7
    [⟨"Nurse", "hi"⟩]
  exact ⟨h.1, h.2.1, h.2.2.1, h.2.2.2.1, h.2.2.2.2.1,
    h.2.2.2.2.2 "Nurse" (by decide) (by decide)⟩

/-- C6.  Summary generation (`src/App.tsx`) with an empty transcript and no
reference documents returns before doing anything: no request is assembled
or sent, and the whole application state (summary, transcript, documents,
status, error banner) is exactly what it was. -/
theorem c6_empty_input_guard (st : SrcApp.AppState)
    (templateId customInstruction : String) (resp : SrcApp.GenOutcome)
    (ht : st.transcripts = []) (hd : st.documents = []) :
    SrcApp.generateSummary st templateId customInstruction resp
      = (st, none) := by
  unfold SrcApp.generateSummary
  rw [if_pos]
  exact ⟨by rw [ht]; rfl, by rw [hd]; rfl⟩

/-- Witness for C6: scenario D of the specification at a concrete state. -/
theorem c6_empty_input_guard_witness :
    SrcApp.generateSummary ⟨.IDLE, [], "", [], none, false⟩
        "monitoring" "" (.ok (some "text"))
      = (⟨.IDLE, [], "", [], none, false⟩, none) :=
  c6_empty_input_guard ⟨.IDLE, [], "", [], none, false⟩
    "monitoring" "" (.ok (some "text")) rfl rfl

/-- C7.  Diarization in the root application variant rejects any encoded
payload longer than `19 * 1024 * 1024` before attempting the external call:
no call happens, an error message is surfaced, the prior transcript is kept
unchanged, and the session returns to `IDLE`. -/
theorem c7_payload_guard (st : RootState) (base64Length now : Nat)
    (resp : DiarizeResponse) (h : base64Length > 19 * 1024 * 1024) :
    (RootApp.analyzeAudioAndDiarize st base64Length now resp).2 = false ∧
    (RootApp.analyzeAudioAndDiarize st base64Length now resp).1.transcripts
      = st.transcripts ∧
    (RootApp.analyzeAudioAndDiarize st base64Length now
        resp).1.errorMsg.isSome = true ∧
    (RootApp.analyzeAudioAndDiarize st base64Length now resp).1.status
      = .IDLE := by
  unfold RootApp.analyzeAudioAndDiarize
  rw [if_pos h]
  exact ⟨rfl, rfl, rfl, rfl⟩

/-- Witness for C7: a payload one byte over the guard is rejected without a
call and the transcript is retained. -/
theorem c7_payload_guard_witness :
    (RootApp.analyzeAudioAndDiarize
        ⟨.IDLE, [⟨"1", "Staff", "kept", 1, true⟩], none, false⟩
        (19 * 1024 * 1024 + 1) 5 (.ok [⟨"Staff", "x"⟩])).2 = false ∧
    (RootApp.analyzeAudioAndDiarize
        ⟨.IDLE, [⟨"1", "Staff", "kept", 1, true⟩], none, false⟩
        (19 * 1024 * 1024 + 1) 5
        (.ok [⟨"Staff", "x"⟩])).1.transcripts
      = [⟨"1", "Staff", "kept", 1, true⟩] ∧
    (RootApp.analyzeAudioAndDiarize
        ⟨.IDLE, [⟨"1", "Staff", "kept", 1, true⟩], none, false⟩
        (19 * 1024 * 1024 + 1) 5
        (.ok [⟨"Staff", "x"⟩])).1.errorMsg.isSome = true ∧
    (RootApp.analyzeAudioAndDiarize
        ⟨.IDLE, [⟨"1", "Staff", "kept", 1, true⟩], none, false⟩
        (19 * 1024 * 1024 + 1) 5 (.ok [⟨"Staff", "x"⟩])).1.status
      = .IDLE :=
  c7_payload_guard ⟨.IDLE, [⟨"1", "Staff", "kept", 1, true⟩], none, false⟩
    (19 * 1024 * 1024 + 1) 5 (.ok [⟨"Staff", "x"⟩]) (by omega)

/-- C10.  The `src/App.tsx` edit handler called with an id absent from the
transcript does not leave it unchanged: it appends a brand-new entry at the
end carrying that id, the `Staff` speaker, the given text and flag, and a
fresh timestamp. -/
theorem c10_edit_unknown_id_appends (prev : List TranscriptItem)
    (id text : String) (final : Bool) (now : Nat)
    (h : ∀ e ∈ prev, e.id ≠ id) :
    SrcApp.updateTranscript prev id text final now
      = prev ++ [⟨id, .Staff, text, now, final⟩] := by
  unfold SrcApp.updateTranscript
  have hfind : prev.find? (fun t => t.id == id) = none := by
    rw [List.find?_eq_none]
    intro e he
    simpa using h e he
  rw [hfind]

/-- Witness for C10: an edit addressed to the unknown id `gone` appends a
new `Staff` entry instead of leaving the transcript unchanged. -/
theorem c10_edit_unknown_id_appends_witness :
    SrcApp.updateTranscript [⟨"1", .Client, "a", 1, true⟩] "gone" "txt" true 9
      = [⟨"1", .Client, "a", 1, true⟩, ⟨"gone", .Staff, "txt", 9, true⟩] :=
  c10_edit_unknown_id_appends [⟨"1", .Client, "a", 1, true⟩] "gone" "txt"
    true 9 (by intro e he; simp at he; rw [he]; decide)

/-! ## UI gating (`SummaryPanel.tsx` and the `src/App.tsx` start button) -/

namespace SummaryPanel

/-- `const isGenerating = status === AppStatus.PROCESSING`. -/
def isGenerating (status : AppStatus) : Bool :=
  status == AppStatus.PROCESSING

/-- The `disabled` condition of the generate button:
`isGenerating || status === AppStatus.RECORDING`. -/
def generateDisabled (status : AppStatus) : Bool :=
  isGenerating status || status == AppStatus.RECORDING

end SummaryPanel

namespace SrcApp

/-- Render condition of the start-recording button in `src/App.tsx`:
`!isSessionFinished && status === AppStatus.IDLE && !hasPostProcessed`. -/
def startButtonShown (isSessionFinished : Bool) (status : AppStatus)
    (hasPostProcessed : Bool) : Bool :=
  !isSessionFinished && status == AppStatus.IDLE && !hasPostProcessed

end SrcApp

/-- C8 counterexample: the claim asserts that summary generation is
permitted while the status is `PROCESSING`, but the generate button is
disabled there (`disabled = isGenerating || recording` with
`isGenerating = status === PROCESSING`). -/
theorem c8_processing_disabled_counterexample :
    SummaryPanel.generateDisabled AppStatus.PROCESSING = true := by decide

/-- C8 (amended).  Starting a recording is offered only in the `IDLE`
status, and summary generation is disabled in the `RECORDING` and
`PROCESSING` statuses and enabled in `IDLE` (it is also enabled in
`CONNECTING` and `ERROR`, about which the claim says nothing). -/
theorem c8_gating :
    (∀ (sessionFinished postProcessed : Bool) (st : AppStatus),
      SrcApp.startButtonShown sessionFinished st postProcessed = true →
      st = AppStatus.IDLE)
  ∧ SummaryPanel.generateDisabled AppStatus.RECORDING = true
  ∧ SummaryPanel.generateDisabled AppStatus.PROCESSING = true
  ∧ SummaryPanel.generateDisabled AppStatus.IDLE = false := by
  refine ⟨?_, by decide, by decide, by decide⟩
  intro f h st hshow
  cases st
  · rfl
  all_goals simp [SrcApp.startButtonShown] at hshow

/-- Witness for C8 at concrete inputs: the start button rendered in a
concrete `IDLE` state indeed certifies the `IDLE` status, and the two gating
facts hold. -/
theorem c8_gating_witness :
    AppStatus.IDLE = AppStatus.IDLE ∧
    SummaryPanel.generateDisabled AppStatus.RECORDING = true ∧
    SummaryPanel.generateDisabled AppStatus.IDLE = false :=
  ⟨c8_gating.1 false false AppStatus.IDLE (by decide),
   c8_gating.2.1, c8_gating.2.2.2⟩

/-! ## The PCM quantizer (`createPcmBlob` in `audioUtils.ts`) -/

/-- Clamping of a sample: `Math.max(-1, Math.min(1, data[i]))`. -/
def clampSample (x : ℚ) : ℚ := max (-1) (min 1 x)

/-- Asymmetric scaling: `s < 0 ? s * 0x8000 : s * 0x7FFF`. -/
def scaleSample (s : ℚ) : ℚ := if s < 0 then s * 32768 else s * 32767

/-- Truncation toward zero, the rounding the `Int16Array` element
conversion applies. -/
def truncToward0 (q : ℚ) : Int := if q < 0 then -(⌊-q⌋) else ⌊q⌋

/-- Wrapping of the truncated value into a signed 16-bit element, the last
step of the `Int16Array` conversion. -/
def toInt16 (n : Int) : Int := ((n + 32768) % 65536) - 32768

/-- The per-sample pipeline of `createPcmBlob`. -/
def pcmSample (x : ℚ) : Int :=
  toInt16 (truncToward0 (scaleSample (clampSample x)))

/-- Little-endian byte pattern of one stored 16-bit sample, as the
`Uint8Array` view of the `Int16Array` buffer exposes it. -/
def sampleBytes (n : Int) : List Nat :=
  let u := (n % 65536).toNat
  [u % 256, u / 256]

/-- Byte sequence produced by `createPcmBlob` for a sample buffer (the
base64 transport encoding of equal byte sequences is equal). -/
def createPcmBlob (data : List ℚ) : List Nat :=
  (data.map pcmSample).flatMap sampleBytes

theorem clampSample_bounds (x : ℚ) :
    -1 ≤ clampSample x ∧ clampSample x ≤ 1 :=
  ⟨le_max_left _ _, max_le (by norm_num) (min_le_left _ _)⟩

/-- The truncated scaled value of a clamped sample stays within the signed
16-bit range. -/
theorem truncScale_bounds (x : ℚ) :
    -32768 ≤ truncToward0 (scaleSample (clampSample x)) ∧
    truncToward0 (scaleSample (clampSample x)) ≤ 32767 := by
  obtain ⟨hlo, hhi⟩ := clampSample_bounds x
  set s := clampSample x with hs
  unfold scaleSample truncToward0
  by_cases hneg : s < 0
  · rw [if_pos hneg]
    have hq0 : s * 32768 < 0 := mul_neg_of_neg_of_pos hneg (by norm_num)
    rw [if_pos hq0]
    have hql : (-32768 : ℚ) ≤ s * 32768 := by nlinarith
    have hfl : ⌊-(s * 32768)⌋ ≤ 32768 := by
      calc ⌊-(s * 32768)⌋ ≤ ⌊(32768 : ℚ)⌋ := Int.floor_le_floor (by linarith)
        _ = 32768 := by norm_num
    have hfg : 0 ≤ ⌊-(s * 32768)⌋ := Int.floor_nonneg.mpr (by linarith)
    omega
  · rw [if_neg hneg]
    push_neg at hneg
    have hq0 : 0 ≤ s * 32767 := mul_nonneg hneg (by norm_num)
    have hqh : s * 32767 ≤ 32767 := by nlinarith
    rw [if_neg (by linarith : ¬s * 32767 < 0)]
    have h1 : 0 ≤ ⌊s * 32767⌋ := Int.floor_nonneg.mpr hq0
    have h2 : ⌊s * 32767⌋ ≤ 32767 := by
      calc ⌊s * 32767⌋ ≤ ⌊(32767 : ℚ)⌋ := Int.floor_le_floor hqh
        _ = 32767 := by norm_num
    omega

/-- C3.  The PCM quantizer clamps, scales negative samples by `32768` and
non-negative ones by `32767`, truncates, and never wraps: the truncated
value already lies in `[-32768, 32767]`, a full-scale `-1` encodes to
`-32768` and a full-scale `1` to `32767`, and the encoder is a pure function
of the sample buffer (equal buffers give equal encoded byte sequences). -/
theorem c3_pcm_encoder :
    pcmSample (-1) = -32768
  ∧ pcmSample 1 = 32767
  ∧ (∀ x : ℚ,
      pcmSample x = truncToward0 (scaleSample (clampSample x)) ∧
      -32768 ≤ truncToward0 (scaleSample (clampSample x)) ∧
      truncToward0 (scaleSample (clampSample x)) ≤ 32767)
  ∧ (∀ a b : List ℚ, a = b → createPcmBlob a = createPcmBlob b) := by
  refine ⟨?_, ?_, ?_, ?_⟩
  · norm_num [pcmSample, clampSample, scaleSample, truncToward0, toInt16]
  · norm_num [pcmSample, clampSample, scaleSample, truncToward0, toInt16]
  · intro x
    obtain ⟨h1, h2⟩ := truncScale_bounds x
    refine ⟨?_, h1, h2⟩
    unfold pcmSample toInt16
    omega
  · intro a b h
    rw [h]

/-- Witness for C3: the deterministic conjunct applied at a concrete
buffer. -/
theorem c3_pcm_encoder_witness :
    createPcmBlob [(1 : ℚ) / 2, -1, 1]
      = createPcmBlob [(1 : ℚ) / 2, -1, 1] :=
  c3_pcm_encoder.2.2.2 [(1 : ℚ) / 2, -1, 1] [(1 : ℚ) / 2, -1, 1] rfl

/-! ## Reachable transcript states (C4)

The three transcript-mutating operations of the application: a live
fragment (always attributed to `Staff` by `handleTranscriptChunk`), a user
edit by id, and a diarization run whose success replaces the transcript
with the freshly built entries while a failure leaves it alone (neither
touches the two refs).  Live fragments arrive with the nondecreasing
`Date.now()` clock, recorded as the monotonicity premise of the `chunk`
step. -/

inductive SessionOp where
  | chunk (text : String) (now : Nat)
  | edit (id newText : String)
  | diarize (now : Nat) (resp : DiarizeResponse)

def applySessionOp (s : MergeState) : SessionOp → MergeState
  | .chunk text now => handleTranscriptChunk s text now
  | .edit id newText => updateTranscript s id newText
  | .diarize now resp =>
    match resp with
    | .ok records =>
      { s with transcripts := SrcApp.mkAutoTranscripts now 0 records }
    | _ => s

inductive Reachable : MergeState → Prop where
  | init : Reachable initMergeState
  | chunk {s : MergeState} (text : String) (now : Nat)
      (hs : Reachable s) (hmono : s.lastUpdateTime ≤ now) :
      Reachable (applySessionOp s (.chunk text now))
  | edit {s : MergeState} (id newText : String) (hs : Reachable s) :
      Reachable (applySessionOp s (.edit id newText))
  | diarize {s : MergeState} (now : Nat) (resp : DiarizeResponse)
      (hs : Reachable s) :
      Reachable (applySessionOp s (.diarize now resp))

/-- Invariant carried through every reachable state: the ids are pairwise
distinct, and an entry whose id prints a time `t` was created at `t`, so
`t` is below the last update time except possibly for the entry the active
ref still points to, which was created by the merger for the `Staff`
speaker at `t = lastUpdateTime`. -/
def MergeInv (s : MergeState) : Prop :=
  (s.transcripts.map (fun e => e.id)).Nodup ∧
  ∀ e ∈ s.transcripts, ∀ t : Nat, e.id = Nat.repr t →
    t < s.lastUpdateTime ∨
      (t = s.lastUpdateTime ∧ s.activeId = some e.id ∧
        e.speaker = SpeakerRole.Staff)

theorem set_self_of_getElem? {α : Type} :
    ∀ {l : List α} {i : Nat} {x : α}, l[i]? = some x → l.set i x = l := by
  intro l
  induction l with
  | nil => intro i x h; simp at h
  | cons a as ih =>
    intro i x h
    cases i with
    | zero =>
      simp at h
      rw [h]
      rfl
    | succ j =>
      simp only [List.getElem?_cons_succ] at h
      rw [List.set_cons_succ, ih h]

/-- Replacing an entry by one with the same id leaves the id sequence
unchanged. -/
theorem ids_set_same {l : List TranscriptItem} {i : Nat}
    {e0 : TranscriptItem} (hget : l[i]? = some e0) (e1 : TranscriptItem)
    (hid : e1.id = e0.id) :
    (l.set i e1).map (fun e => e.id) = l.map (fun e => e.id) := by
  rw [List.map_set]
  apply set_self_of_getElem?
  rw [List.getElem?_map, hget, Option.map_some', hid]

/-- In a state about to take the create branch of the merger, the fresh id
`Nat.repr now` cannot already occur in the transcript. -/
theorem fresh_id_of_create {s : MergeState} (hinv : MergeInv s)
    {now : Nat} (hmono : s.lastUpdateTime ≤ now)
    (hcase : activeItem s = none ∨
      ∃ i e0, activeItem s = some (i, e0) ∧
        ¬(e0.speaker = SpeakerRole.Staff ∧
          now - s.lastUpdateTime < TIME_THRESHOLD_MS)) :
    ∀ e ∈ s.transcripts, e.id ≠ Nat.repr now := by
  intro e he hid
  obtain ⟨hnodup, hclause⟩ := hinv
  rcases hclause e he now hid with hlt | ⟨heq, hact, hsp⟩
  · omega
  · rcases hcase with hnone | ⟨i, e0, hsome, hncond⟩
    · exact activeItem_ne_none he hact hnone
    · obtain ⟨hget0, hid0⟩ := activeItem_some hsome
      have he0mem : e0 ∈ s.transcripts := List.getElem?_mem hget0
      have hide : e0.id = e.id := by
        rw [hact] at hid0
        exact (Option.some.inj hid0).symm
      have he0e : e0 = e := List.inj_on_of_nodup_map hnodup he0mem he hide
      apply hncond
      refine ⟨by rw [he0e]; exact hsp, ?_⟩
      show now - s.lastUpdateTime < TIME_THRESHOLD_MS
      unfold TIME_THRESHOLD_MS
      omega

/-- The create branch preserves the invariant when the fresh id is new. -/
theorem inv_pushNewEntry {s : MergeState} (hinv : MergeInv s)
    {now : Nat} (hmono : s.lastUpdateTime ≤ now) (text : String)
    (hfresh : ∀ e ∈ s.transcripts, e.id ≠ Nat.repr now) :
    MergeInv (pushNewEntry s text now .Staff) := by
  obtain ⟨hnodup, hclause⟩ := hinv
  constructor
  · show ((s.transcripts ++
      ([⟨Nat.repr now, .Staff, text, now, true⟩] : List TranscriptItem)).map
      (fun e => e.id)).Nodup
    rw [List.map_append]
    rw [List.nodup_append]
    refine ⟨hnodup, by simp, ?_⟩
    intro a ha hb
    simp only [List.map_cons, List.map_nil, List.mem_singleton] at hb
    obtain ⟨e, he, hea⟩ := List.mem_map.mp ha
    exact hfresh e he (by rw [hea, hb])
  · intro e he t hid
    have hmem : e ∈ s.transcripts ++
        ([⟨Nat.repr now, .Staff, text, now, true⟩] : List TranscriptItem) := he
    rcases List.mem_append.mp hmem with hold | hnew
    · rcases hclause e hold t hid with hlt | ⟨heq, _, _⟩
      · left
        show t < now
        omega
      · by_cases hnow : now = s.lastUpdateTime
        · exact absurd (by rw [hid, heq, hnow]) (hfresh e hold)
        · left
          show t < now
          omega
    · rw [List.mem_singleton] at hnew
      subst hnew
      right
      have ht : now = t := repr_inj hid
      subst ht
      exact ⟨rfl, rfl, rfl⟩

/-- The append branch preserves the invariant. -/
theorem inv_appendBranch {s : MergeState} (hinv : MergeInv s)
    {now : Nat} (hmono : s.lastUpdateTime ≤ now) {i : Nat}
    {e0 : TranscriptItem} (text : String)
    (hget : s.transcripts[i]? = some e0) (hid : s.activeId = some e0.id)
    (hsp : e0.speaker = .Staff) :
    MergeInv { s with
      transcripts := s.transcripts.set i
        { e0 with text := e0.text ++ text, isFinal := false },
      lastUpdateTime := now } := by
  obtain ⟨hnodup, hclause⟩ := hinv
  constructor
  · show ((s.transcripts.set i
      { e0 with text := e0.text ++ text, isFinal := false }).map
        (fun e => e.id)).Nodup
    rw [ids_set_same hget
      { e0 with text := e0.text ++ text, isFinal := false } rfl]
    exact hnodup
  · intro e he t hidt
    have he' : e ∈ s.transcripts.set i
        { e0 with text := e0.text ++ text, isFinal := false } := he
    rcases List.mem_or_eq_of_mem_set he' with hold | rfl
    · rcases hclause e hold t hidt with hlt | ⟨heq, hact, hsp'⟩
      · left
        show t < now
        omega
      · by_cases hnow : now = s.lastUpdateTime
        · right
          exact ⟨by show t = now; omega, hact, hsp'⟩
        · left
          show t < now
          omega
    · have h0mem : e0 ∈ s.transcripts := List.getElem?_mem hget
      rcases hclause e0 h0mem t hidt with hlt | ⟨heq, _, _⟩
      · left
        show t < now
        omega
      · by_cases hnow : now = s.lastUpdateTime
        · right
          exact ⟨by show t = now; omega, hid, hsp⟩
        · left
          show t < now
          omega

theorem inv_chunk {s : MergeState} (hinv : MergeInv s) (text : String)
    {now : Nat} (hmono : s.lastUpdateTime ≤ now) :
    MergeInv (handleTranscriptChunk s text now) := by
  unfold handleTranscriptChunk
  by_cases hb : isBlank text
  · rwa [if_pos hb]
  rw [if_neg hb]
  unfold processTranscriptUpdate
  cases hact : activeItem s with
  | none =>
    exact inv_pushNewEntry hinv hmono text
      (fresh_id_of_create hinv hmono (Or.inl hact))
  | some pair =>
    obtain ⟨i, e0⟩ := pair
    obtain ⟨hget, hid⟩ := activeItem_some hact
    dsimp only
    by_cases hcond : e0.speaker = SpeakerRole.Staff ∧
        now - s.lastUpdateTime < TIME_THRESHOLD_MS
    · rw [if_pos hcond]
      exact inv_appendBranch hinv hmono text hget hid hcond.1
    · rw [if_neg hcond]
      exact inv_pushNewEntry hinv hmono text
        (fresh_id_of_create hinv hmono (Or.inr ⟨i, e0, hact, hcond⟩))

theorem inv_edit {s : MergeState} (hinv : MergeInv s) (id newText : String) :
    MergeInv (updateTranscript s id newText) := by
  obtain ⟨hnodup, hclause⟩ := hinv
  have hfid : ∀ a : TranscriptItem,
      (if a.id = id then { a with text := newText } else a).id = a.id := by
    intro a
    by_cases h : a.id = id <;> simp [h]
  have hfsp : ∀ a : TranscriptItem,
      (if a.id = id then { a with text := newText } else a).speaker
        = a.speaker := by
    intro a
    by_cases h : a.id = id <;> simp [h]
  constructor
  · show ((s.transcripts.map fun t =>
      if t.id = id then { t with text := newText } else t).map
        (fun e => e.id)).Nodup
    have hmm : (s.transcripts.map fun t =>
        if t.id = id then { t with text := newText } else t).map
          (fun e => e.id) = s.transcripts.map (fun e => e.id) := by
      rw [List.map_map]
      exact List.map_congr_left (fun a _ => hfid a)
    rw [hmm]
    exact hnodup
  · intro e he t hidt
    obtain ⟨a, ha, rfl⟩ := List.mem_map.mp he
    rcases hclause a ha t (by rw [← hfid a]; exact hidt) with hlt | ⟨heq, hact, hsp⟩
    · left
      exact hlt
    · right
      exact ⟨heq, by rw [hfid a]; exact hact, by rw [hfsp a]; exact hsp⟩

theorem inv_diarizeOk {s : MergeState} (now : Nat)
    (records : List DiarizeRecord) :
    MergeInv { s with transcripts := SrcApp.mkAutoTranscripts now 0 records } := by
  constructor
  · exact SrcApp.mkAutoTranscripts_ids_nodup records 0
  · intro e he t hid
    obtain ⟨j, _, hjid⟩ := SrcApp.mem_mkAutoTranscripts_id he
    rw [hjid] at hid
    exact absurd hid (prefixed_ne_repr rfl (by decide) j t)

theorem inv_reachable : ∀ {s : MergeState}, Reachable s → MergeInv s := by
  intro s h
  induction h with
  | init => exact ⟨by simp [initMergeState], by simp [initMergeState]⟩
  | chunk text now hs hmono ih => exact inv_chunk ih text hmono
  | edit id newText hs ih => exact inv_edit ih id newText
  | diarize now resp hs ih =>
    cases resp with
    | ok records => exact inv_diarizeOk now records
    | svcError => exact ih
    | emptyText => exact ih
    | badJson => exact ih

theorem edit_ids (s : MergeState) (id newText : String) :
    (updateTranscript s id newText).transcripts.map (fun e => e.id)
      = s.transcripts.map (fun e => e.id) := by
  show (s.transcripts.map _).map _ = _
  rw [List.map_map]
  refine List.map_congr_left ?_
  intro a _
  by_cases h : a.id = id <;> simp [h]

/-- C4.  Along every sequence of live-merge, user-edit and
diarization-replacement operations (live fragments arriving with the
nondecreasing clock) the entry ids stay pairwise distinct; moreover no
operation reorders existing entries: a live fragment at most appends at the
end (the id sequence is extended, never permuted), an edit leaves the id
sequence untouched, a successful diarization replaces the transcript
wholesale with the freshly built entries, and a failed one leaves the state
unchanged. -/
theorem c4_transcript_invariants :
    (∀ s : MergeState, Reachable s →
      (s.transcripts.map (fun e => e.id)).Nodup)
  ∧ (∀ (s : MergeState) (text : String) (now : Nat), ∃ tail,
      (applySessionOp s (.chunk text now)).transcripts.map (fun e => e.id)
        = s.transcripts.map (fun e => e.id) ++ tail)
  ∧ (∀ (s : MergeState) (id newText : String),
      (applySessionOp s (.edit id newText)).transcripts.map (fun e => e.id)
        = s.transcripts.map (fun e => e.id))
  ∧ (∀ (s : MergeState) (now : Nat) (records : List DiarizeRecord),
      (applySessionOp s (.diarize now (.ok records))).transcripts
        = SrcApp.mkAutoTranscripts now 0 records)
  ∧ (∀ (s : MergeState) (now : Nat) (resp : DiarizeResponse),
      resp = .svcError ∨ resp = .emptyText ∨ resp = .badJson →
      applySessionOp s (.diarize now resp) = s) := by
  refine ⟨?_, ?_, ?_, ?_, ?_⟩
  · intro s h
    exact (inv_reachable h).1
  · intro s text now
    show ∃ tail, (handleTranscriptChunk s text now).transcripts.map
      (fun e => e.id) = s.transcripts.map (fun e => e.id) ++ tail
    unfold handleTranscriptChunk
    by_cases hb : isBlank text
    · rw [if_pos hb]
      exact ⟨[], by simp⟩
    rw [if_neg hb]
    unfold processTranscriptUpdate
    cases hact : activeItem s with
    | none =>
      exact ⟨[Nat.repr now], by simp [pushNewEntry]⟩
    | some pair =>
      obtain ⟨i, e0⟩ := pair
      obtain ⟨hget, _⟩ := activeItem_some hact
      dsimp only
      by_cases hcond : e0.speaker = SpeakerRole.Staff ∧
          now - s.lastUpdateTime < TIME_THRESHOLD_MS
      · rw [if_pos hcond]
        refine ⟨[], ?_⟩
        rw [List.append_nil]
        exact ids_set_same hget
          { e0 with text := e0.text ++ text, isFinal := false } rfl
      · rw [if_neg hcond]
        exact ⟨[Nat.repr now], by simp [pushNewEntry]⟩
  · intro s id newText
    exact edit_ids s id newText
  · intro s now records
    rfl
  · intro s now resp hresp
    rcases hresp with rfl | rfl | rfl <;> rfl

/-- Witness for C4: distinct ids in a concretely reached state, and a
concrete failed diarization leaving the state unchanged. -/
theorem c4_transcript_invariants_witness :
    ((applySessionOp initMergeState (.chunk "hello" 100)).transcripts.map
        (fun e => e.id)).Nodup
  ∧ applySessionOp initMergeState (.diarize 5 .svcError) = initMergeState :=
  ⟨c4_transcript_invariants.1 _
      (Reachable.chunk "hello" 100 Reachable.init (by decide)),
   c4_transcript_invariants.2.2.2.2 initMergeState 5 .svcError
      (Or.inl rfl)⟩
